import Mathlib

/-!
Shallow embedding of the law-school admission policies of the fairness
evaluation notebook: the utility normalize and the classes NaivePolicy,
UnawarePolicy and FairPolicy, together with proofs of the specified
properties.

Modelling conventions:
* numpy column vectors of shape (n, 1) become lists over the reals;
* np.argsort(axis=0) becomes a stable ascending argsort, realised as
  List.insertionSort of the index list under the lexicographic order
  on (value, index);
* the Python slice a[-k:] becomes pyLastSlice, and [::-1] becomes
  List.reverse;
* Python assert failures and the AttributeError raised by reading an
  attribute that train never set become Except PolicyError;
* the sklearn collaborators LinearRegression, PCA and train_test_split
  are embedded by their documented mathematical contract: ordinary
  least squares through the normal equations (none when the normal
  matrix is singular; the minimum-norm completion for rank-deficient
  designs is outside this embedding), single-component whitened PCA by
  the closed-form top eigenvector of the 2-by-2 sample covariance
  matrix, and the random split by an explicit list of held-out row
  indices (row order inside each part is irrelevant to an ordinary
  least squares fit, so each part keeps the original order).
-/

namespace LawSchool

/-- numpy mean of a column: the sum divided by the length. -/
noncomputable def npMean (x : List ℝ) : ℝ := x.sum / x.length

/-- numpy population variance (ddof = 0) of a column. -/
noncomputable def npVar (x : List ℝ) : ℝ :=
  ((x.map (fun v => (v - npMean x) ^ 2)).sum) / x.length

/-- numpy standard deviation: the square root of the population variance. -/
noncomputable def npStd (x : List ℝ) : ℝ := Real.sqrt (npVar x)

/-- Source function normalize: (x - np.mean(x)) / np.std(x), elementwise. -/
noncomputable def normalize (x : List ℝ) : List ℝ :=
  x.map (fun v => (v - npMean x) / npStd x)

section RankingDefs

variable {α : Type} [LinearOrder α] [Inhabited α]

/-- Value of the score column at an index (out-of-range reads return the
default value; every read performed by the argsort is in range). -/
def entry (s : List α) (i : ℕ) : α := s.getD i default

/-- Index i strictly precedes index j in the stable ascending order of the
score column s: strictly smaller value, or equal value and smaller index. -/
def IdxLt (s : List α) (i j : ℕ) : Prop :=
  entry s i < entry s j ∨ (entry s i = entry s j ∧ i < j)

/-- Reflexive closure of IdxLt: the total order the argsort sorts by. -/
def IdxLe (s : List α) (i j : ℕ) : Prop := IdxLt s i j ∨ i = j

instance (s : List α) : DecidableRel (IdxLt s) := fun i j =>
  inferInstanceAs (Decidable (entry s i < entry s j ∨ (entry s i = entry s j ∧ i < j)))

instance (s : List α) : DecidableRel (IdxLe s) := fun i j =>
  inferInstanceAs (Decidable (IdxLt s i j ∨ i = j))

instance (s : List α) : IsTrans ℕ (IdxLt s) := by
  constructor
  rintro a b c (h₁ | ⟨e₁, l₁⟩) (h₂ | ⟨e₂, l₂⟩)
  · exact Or.inl (lt_trans h₁ h₂)
  · exact Or.inl (e₂ ▸ h₁)
  · exact Or.inl (e₁ ▸ h₂)
  · exact Or.inr ⟨e₁.trans e₂, lt_trans l₁ l₂⟩

instance (s : List α) : IsTrans ℕ (IdxLe s) := by
  constructor
  rintro a b c (h₁ | rfl) (h₂ | rfl)
  · exact Or.inl (IsTrans.trans a b c h₁ h₂)
  · exact Or.inl h₁
  · exact Or.inl h₂
  · exact Or.inr rfl

instance (s : List α) : IsTotal ℕ (IdxLe s) := by
  constructor
  intro a b
  by_cases h : a = b
  · exact Or.inl (Or.inr h)
  · rcases lt_trichotomy (entry s a) (entry s b) with hv | hv | hv
    · exact Or.inl (Or.inl (Or.inl hv))
    · rcases lt_or_gt_of_ne h with hn | hn
      · exact Or.inl (Or.inl (Or.inr ⟨hv, hn⟩))
      · exact Or.inr (Or.inl (Or.inr ⟨hv.symm, hn⟩))
    · exact Or.inr (Or.inl (Or.inl hv))

instance (s : List α) : IsAntisymm ℕ (IdxLe s) := by
  constructor
  rintro a b (h₁ | rfl) (h₂ | h₂)
  · rcases h₁ with h₁ | ⟨e₁, l₁⟩ <;> rcases h₂ with h₂ | ⟨e₂, l₂⟩
    · exact absurd (lt_trans h₁ h₂) (lt_irrefl _)
    · exact absurd (e₂ ▸ h₁) (lt_irrefl _)
    · exact absurd (e₁ ▸ h₂) (lt_irrefl _)
    · exact absurd (lt_trans l₁ l₂) (lt_irrefl _)
  · exact h₂.symm
  · rfl
  · rfl

/-- Model of np.argsort(axis=0) on a column: the indices 0, ..., n-1 stably
sorted into ascending order of their score values. -/
def argsort (s : List α) : List ℕ := List.insertionSort (IdxLe s) (List.range s.length)

/-- Python slice a[-k:]: the last k elements, or the whole list when k = 0. -/
def pyLastSlice (l : List ℕ) (k : ℕ) : List ℕ := if k = 0 then l else l.drop (l.length - k)

/-- Model of P = np.zeros([n, 1]).astype(bool); P[ind] = True: the boolean
column of length n that is true exactly at the indices occurring in ind. -/
def selectMask (n : ℕ) (ind : List ℕ) : List Bool :=
  (List.range n).map (fun i => decide (i ∈ ind))

/-- Model of ind = argsort(score)[-k:][::-1]: the top-k index list. -/
def topIdx (s : List α) (k : ℕ) : List ℕ := (pyLastSlice (argsort s) k).reverse

/-- Acceptance mask produced from a score column: true exactly on the
top-k indices. -/
def topKMask (s : List α) (k : ℕ) : List Bool := selectMask s.length (topIdx s k)

/-- Number of indices ranked strictly above i in descending order of the
score (strictly higher value, or equal value and higher index): the
descending rank with ties broken by the stable underlying sort order. -/
def descRank (s : List α) (i : ℕ) : ℕ :=
  ((List.range s.length).filter (fun j => decide (IdxLt s i j))).length

end RankingDefs

/-- Failures surfaced by the policy methods: the two Python assert
failures and the AttributeError raised by reading an attribute that
train never set (carrying the attribute name). -/
inductive PolicyError where
  | assertShape : PolicyError
  | assertSeats : PolicyError
  | attributeError : String → PolicyError
deriving DecidableEq

instance {ε σ : Type} [DecidableEq ε] [DecidableEq σ] : DecidableEq (Except ε σ) := fun a b =>
  match a, b with
  | .ok x, .ok y => decidable_of_iff (x = y) (by simp)
  | .error x, .error y => decidable_of_iff (x = y) (by simp)
  | .ok _, .error _ => isFalse (by simp)
  | .error _, .ok _ => isFalse (by simp)

/-- Seat-count preamble shared verbatim by every evaluate method: default
nb_seats to nb_obs when it is None, otherwise assert that it is a positive
integer and clamp it to nb_obs. -/
def resolveSeats (nbObs : ℕ) (nbSeats : Option ℤ) : Except PolicyError ℕ :=
  match nbSeats with
  | none => .ok nbObs
  | some k => if 0 < k then .ok (min nbObs k.toNat) else .error .assertSeats

/-- Admissible nb_seats argument: either omitted or a positive integer. -/
def SeatsOk (nbSeats : Option ℤ) : Prop := ∀ k, nbSeats = some k → 0 < k

/-- sklearn LinearRegression().fit on a two-column design matrix with an
intercept: solves the 3-by-3 normal equations by Cramer's rule, returning
(intercept, coefficient on the first column, coefficient on the second
column); none when the normal matrix is singular (the minimum-norm
completion sklearn computes for rank-deficient designs is outside this
embedding). -/
noncomputable def olsFit2 (rows : List (ℝ × ℝ)) (y : List ℝ) : Option (ℝ × ℝ × ℝ) :=
  let n : ℝ := rows.length
  let s1 := (rows.map Prod.fst).sum
  let s2 := (rows.map Prod.snd).sum
  let s11 := (rows.map (fun p => p.1 * p.1)).sum
  let s12 := (rows.map (fun p => p.1 * p.2)).sum
  let s22 := (rows.map (fun p => p.2 * p.2)).sum
  let sy := y.sum
  let s1y := (List.zipWith (fun p v => p.1 * v) rows y).sum
  let s2y := (List.zipWith (fun p v => p.2 * v) rows y).sum
  let det := n * (s11 * s22 - s12 * s12) - s1 * (s1 * s22 - s12 * s2) +
    s2 * (s1 * s12 - s11 * s2)
  if det = 0 then none
  else
    let d0 := sy * (s11 * s22 - s12 * s12) - s1 * (s1y * s22 - s12 * s2y) +
      s2 * (s1y * s12 - s11 * s2y)
    let d1 := n * (s1y * s22 - s12 * s2y) - sy * (s1 * s22 - s12 * s2) +
      s2 * (s1 * s2y - s1y * s2)
    let d2 := n * (s11 * s2y - s1y * s12) - s1 * (s1 * s2y - s1y * s2) +
      sy * (s1 * s12 - s11 * s2)
    some (d0 / det, d1 / det, d2 / det)

/-- Prediction of a fitted two-feature regression on one row. -/
noncomputable def olsPredict (b : ℝ × ℝ × ℝ) (x : ℝ × ℝ) : ℝ :=
  b.1 + b.2.1 * x.1 + b.2.2 * x.2

section SplitDefs

variable {β : Type}

/-- Rows of a column kept for training by a train/test split described by
the list of held-out row indices. -/
def trainRows (tst : List ℕ) (rows : List β) : List β :=
  ((rows.enum).filter (fun p => decide (p.1 ∉ tst))).map Prod.snd

/-- Rows of a column held out by a train/test split. -/
def testRows (tst : List ℕ) (rows : List β) : List β :=
  ((rows.enum).filter (fun p => decide (p.1 ∈ tst))).map Prod.snd

/-- Well-formed random partition for test_size = 0.33 over n rows:
distinct in-range held-out indices, ceil(0.33 * n) of them. -/
def ValidSplit (n : ℕ) (tst : List ℕ) : Prop :=
  tst.Nodup ∧ (∀ i ∈ tst, i < n) ∧ tst.length = (33 * n + 99) / 100

end SplitDefs

namespace NaivePolicy

/-- Internal ranking score of NaivePolicy: normalize(G) + normalize(L). -/
noncomputable def score (G L : List ℝ) : List ℝ :=
  List.zipWith (· + ·) (normalize G) (normalize L)

/-- Source NaivePolicy.evaluate: assert equal shapes, resolve the seat
count, rank by normalize(G) + normalize(L) and accept the top rows. -/
noncomputable def evaluate (G L : List ℝ) (nbSeats : Option ℤ) :
    Except PolicyError (List Bool) :=
  if G.length = L.length then
    match resolveSeats G.length nbSeats with
    | .error e => .error e
    | .ok k => .ok (topKMask (score G L) k)
  else .error .assertShape

end NaivePolicy

namespace UnawarePolicy

/-- Source UnawarePolicy.train: split the rows of the design matrix
hstack([G, L]) and the target F by the random partition tst, fit
F ~ [G, L] on the training part, and discard the held-out prediction;
the returned value is the F_reg attribute. -/
noncomputable def train (G L F : List ℝ) (tst : List ℕ) : Option (ℝ × ℝ × ℝ) :=
  olsFit2 (trainRows tst (List.zip G L)) (trainRows tst F)

/-- Internal ranking score of UnawarePolicy: the predictions F_hat of the
fitted regression on hstack([G, L]). -/
noncomputable def score (fReg : ℝ × ℝ × ℝ) (G L : List ℝ) : List ℝ :=
  (List.zip G L).map (olsPredict fReg)

/-- Source UnawarePolicy.evaluate: assert equal shapes, resolve the seat
count, read the F_reg attribute (an AttributeError before train), rank by
F_hat and accept the top rows. -/
noncomputable def evaluate (fReg : Option (ℝ × ℝ × ℝ)) (G L : List ℝ) (nbSeats : Option ℤ) :
    Except PolicyError (List Bool) :=
  if G.length = L.length then
    match resolveSeats G.length nbSeats with
    | .error e => .error e
    | .ok k =>
      match fReg with
      | none => .error (.attributeError "F_reg")
      | some b => .ok (topKMask (score b G L) k)
  else .error .assertShape

end UnawarePolicy

/-- Fitted state of sklearn PCA(whiten=True, n_components=1) on an (n, 2)
matrix: the two column means, the unit principal direction, and the
explained variance of that component (largest eigenvalue of the sample
covariance matrix, normalised by n - 1). -/
structure PCA1 where
  m1 : ℝ
  m2 : ℝ
  c1 : ℝ
  c2 : ℝ
  ev : ℝ

/-- Fit of the single-component PCA: closed-form top eigenpair of the
2-by-2 sample covariance matrix of the two columns. -/
noncomputable def pcaFit (rows : List (ℝ × ℝ)) : PCA1 :=
  let x := rows.map Prod.fst
  let y := rows.map Prod.snd
  let m1 := npMean x
  let m2 := npMean y
  let nm1 : ℝ := (rows.length : ℝ) - 1
  let a := ((x.map (fun v => (v - m1) ^ 2)).sum) / nm1
  let c := ((y.map (fun v => (v - m2) ^ 2)).sum) / nm1
  let b := ((rows.map (fun p => (p.1 - m1) * (p.2 - m2))).sum) / nm1
  let lam := (a + c + Real.sqrt ((a - c) ^ 2 + 4 * b ^ 2)) / 2
  let v1 := if b = 0 then (if c ≤ a then (1 : ℝ) else 0) else b
  let v2 := if b = 0 then (if c ≤ a then (0 : ℝ) else 1) else lam - a
  let nv := Real.sqrt (v1 ^ 2 + v2 ^ 2)
  ⟨m1, m2, v1 / nv, v2 / nv, lam⟩

/-- Whitened transform of the fitted component: center, project on the
principal direction, divide by the square root of the explained
variance. -/
noncomputable def pcaTransform (p : PCA1) (rows : List (ℝ × ℝ)) : List ℝ :=
  rows.map (fun q => ((q.1 - p.m1) * p.c1 + (q.2 - p.m2) * p.c2) / Real.sqrt p.ev)

/-- numpy population covariance of two columns. -/
noncomputable def npCov (u v : List ℝ) : ℝ :=
  ((List.zipWith (fun a b => (a - npMean u) * (b - npMean v)) u v).sum) / u.length

/-- Off-diagonal entry of np.corrcoef of two columns. -/
noncomputable def npCorr (u v : List ℝ) : ℝ := npCov u v / (npStd u * npStd v)

/-- Residuals of a column against a fitted regression on the protected
attributes: Y - reg.predict(hstack([R, S])). -/
noncomputable def residuals (reg : ℝ × ℝ × ℝ) (R S Y : List ℝ) : List ℝ :=
  List.zipWith (fun y q => y - olsPredict reg q) Y (List.zip R S)

/-- Attributes set by FairPolicy.train. -/
structure FairParams where
  G_reg : ℝ × ℝ × ℝ
  L_reg : ℝ × ℝ × ℝ
  A_pca : PCA1
  sgn : ℝ

namespace FairPolicy

/-- Source FairPolicy.train: fit G ~ [R, S] on the whole data and at once
overwrite that fit with one on the training part of a random split (the
held-out prediction is discarded); same for L ~ [R, S] with a second,
independent split; compute both residual columns on the whole data, fit
the single-component whitened PCA on them, and record the sign of the
correlation between the transformed residuals and G. -/
noncomputable def train (R S G L : List ℝ) (tstG tstL : List ℕ) : Option FairParams :=
  let X := List.zip R S
  let _gFull := olsFit2 X G
  match olsFit2 (trainRows tstG X) (trainRows tstG G) with
  | none => none
  | some gReg =>
    let _lFull := olsFit2 X L
    match olsFit2 (trainRows tstL X) (trainRows tstL L) with
    | none => none
    | some lReg =>
      let gErr := residuals gReg R S G
      let lErr := residuals lReg R S L
      let aPca := pcaFit (List.zip gErr lErr)
      let sgn := Real.sign (npCorr (pcaTransform aPca (List.zip gErr lErr)) G)
      some ⟨gReg, lReg, aPca, sgn⟩

/-- Internal ranking score of FairPolicy: the sign-corrected projection
A_hat = sgn * A_pca.transform of the recomputed residuals. -/
noncomputable def score (p : FairParams) (R S G L : List ℝ) : List ℝ :=
  let gErr := residuals p.G_reg R S G
  let lErr := residuals p.L_reg R S L
  (pcaTransform p.A_pca (List.zip gErr lErr)).map (fun v => p.sgn * v)

/-- Source FairPolicy.evaluate: assert that all four inputs share shape,
resolve the seat count, read the fitted attributes (an AttributeError
before train), recompute the residuals with the already-fitted
regressions, project and sign-correct, and accept the top rows. -/
noncomputable def evaluate (st : Option FairParams) (R S G L : List ℝ)
    (nbSeats : Option ℤ) : Except PolicyError (List Bool) :=
  if R.length = S.length ∧ S.length = G.length ∧ G.length = L.length then
    match resolveSeats R.length nbSeats with
    | .error e => .error e
    | .ok k =>
      match st with
      | none => .error (.attributeError "G_reg")
      | some p => .ok (topKMask (score p R S G L) k)
  else .error .assertShape

end FairPolicy

/-- Attribute state of every policy instance alive in a notebook run;
instances are named by natural numbers. NaivePolicy instances hold no
attributes, so only the two trained classes appear. -/
@[ext]
structure World where
  unawareInst : ℕ → Option (ℝ × ℝ × ℝ)
  fairInst : ℕ → Option FairParams

/-- Effect of calling train on one UnawarePolicy instance: the F_reg
attribute of exactly that instance is overwritten. -/
noncomputable def trainUnawareAt (w : World) (id : ℕ) (G L F : List ℝ)
    (tst : List ℕ) : World :=
  ⟨fun j => if j = id then UnawarePolicy.train G L F tst else w.unawareInst j, w.fairInst⟩

/-- Effect of calling train on one FairPolicy instance: the fitted
attributes of exactly that instance are overwritten. -/
noncomputable def trainFairAt (w : World) (id : ℕ) (R S G L : List ℝ)
    (tstG tstL : List ℕ) : World :=
  ⟨w.unawareInst, fun j => if j = id then FairPolicy.train R S G L tstG tstL else w.fairInst j⟩

section RankingTheorems

variable {α : Type} [LinearOrder α] [Inhabited α]

theorem IdxLt.trans {s : List α} {i j k : ℕ} (h₁ : IdxLt s i j) (h₂ : IdxLt s j k) :
    IdxLt s i k := IsTrans.trans i j k h₁ h₂

theorem IdxLt.irrefl {s : List α} (i : ℕ) : ¬ IdxLt s i i := by
  rintro (h | ⟨-, h⟩) <;> exact lt_irrefl _ h

theorem IdxLt.asymm {s : List α} {i j : ℕ} (h : IdxLt s i j) : ¬ IdxLt s j i :=
  fun h' => IdxLt.irrefl i (h.trans h')

theorem argsort_perm (s : List α) : (argsort s).Perm (List.range s.length) :=
  List.perm_insertionSort _ _

theorem argsort_length (s : List α) : (argsort s).length = s.length := by
  simpa using (argsort_perm s).length_eq

theorem argsort_nodup (s : List α) : (argsort s).Nodup :=
  (argsort_perm s).nodup_iff.mpr (List.nodup_range _)

theorem mem_argsort (s : List α) {i : ℕ} : i ∈ argsort s ↔ i < s.length := by
  rw [(argsort_perm s).mem_iff, List.mem_range]

theorem argsort_sorted (s : List α) : List.Sorted (IdxLe s) (argsort s) :=
  List.sorted_insertionSort _ _

theorem argsort_pairwise (s : List α) : (argsort s).Pairwise (IdxLt s) := by
  have h := (argsort_sorted s).and (argsort_nodup s)
  exact h.imp (fun hab => hab.1.resolve_right hab.2)

/-- Uniqueness of the argsort: any permutation of the index range sorted
by the stable order is the argsort. -/
theorem argsort_eq_of_sorted {s : List α} {L : List ℕ} (hp : L.Perm (List.range s.length))
    (hs : List.Sorted (IdxLe s) L) : argsort s = L :=
  List.eq_of_perm_of_sorted ((argsort_perm s).trans hp.symm) (argsort_sorted s) hs

theorem sorted_idxLe_of_chain {s : List α} {L : List ℕ} (h : List.Chain' (IdxLt s) L) :
    List.Sorted (IdxLe s) L :=
  (List.chain'_iff_pairwise.mp h).imp (fun hab => Or.inl hab)

/-- Membership in a suffix of a strictly sorted duplicate-free index list,
counted through the number of elements ranked strictly above. -/
theorem mem_drop_of_pairwise {lt : ℕ → ℕ → Prop} [DecidableRel lt]
    (hirr : ∀ a, ¬ lt a a) (hasym : ∀ a b, lt a b → ¬ lt b a) :
    ∀ (L : List ℕ), L.Nodup → L.Pairwise lt → ∀ (m i : ℕ),
      (i ∈ L.drop m ↔ i ∈ L ∧ (L.filter (fun j => decide (lt i j))).length < L.length - m) := by
  intro L
  induction L with
  | nil => intro _ _ m i; simp
  | cons a t ih =>
    intro hnd hpw m i
    have hat : a ∉ t := (List.nodup_cons.mp hnd).1
    have hndt : t.Nodup := (List.nodup_cons.mp hnd).2
    have hfwd : ∀ b ∈ t, lt a b := fun b hb => List.rel_of_pairwise_cons hpw hb
    have hpwt : t.Pairwise lt := hpw.of_cons
    match m with
    | 0 =>
      simp only [List.drop_zero, Nat.sub_zero]
      constructor
      · intro hi
        refine ⟨hi, ?_⟩
        exact List.length_filter_lt_length_iff_exists.mpr ⟨i, hi, by simp [hirr i]⟩
      · intro h; exact h.1
    | m + 1 =>
      rw [List.drop_succ_cons]
      by_cases hia : i = a
      · subst hia
        constructor
        · intro hmem
          exact absurd (List.mem_of_mem_drop hmem) hat
        · rintro ⟨-, hcnt⟩
          rw [List.filter_cons_of_neg (by simp [hirr i]),
            List.filter_eq_self.mpr (fun b hb => by simpa using hfwd b hb)] at hcnt
          simp only [List.length_cons] at hcnt
          omega
      · by_cases hit : i ∈ t
        · have hna : ¬ lt i a := hasym a i (hfwd i hit)
          rw [ih hndt hpwt m i]
          rw [List.filter_cons_of_neg (by simpa using hna)]
          simp only [List.mem_cons, List.length_cons]
          constructor
          · rintro ⟨h1, h2⟩; exact ⟨Or.inr h1, by omega⟩
          · rintro ⟨h1, h2⟩
            exact ⟨h1.resolve_left hia, by omega⟩
        · constructor
          · intro hmem
            exact absurd (List.mem_of_mem_drop hmem) hit
          · rintro ⟨h1, -⟩
            exact absurd ((List.mem_cons.mp h1).resolve_left hia) hit

theorem descRank_lt_length {s : List α} {i : ℕ} (hi : i < s.length) :
    descRank s i < s.length := by
  have : (((List.range s.length).filter (fun j => decide (IdxLt s i j))).length <
      (List.range s.length).length) := by
    refine List.length_filter_lt_length_iff_exists.mpr ⟨i, ?_, ?_⟩
    · simpa using hi
    · simp [IdxLt.irrefl i]
  simpa [descRank] using this

/-- Membership characterisation of the top-k index list: an index is
selected exactly when fewer than k indices are ranked strictly above it in
the descending order (ties broken by the stable underlying sort order). -/
theorem mem_topIdx {s : List α} {k i : ℕ} (hk : k ≠ 0) :
    i ∈ topIdx s k ↔ i < s.length ∧ descRank s i < k := by
  have hdrop := @mem_drop_of_pairwise (IdxLt s) _ IdxLt.irrefl
    (fun a b h => h.asymm) (argsort s) (argsort_nodup s) (argsort_pairwise s)
    ((argsort s).length - k) i
  have hfilt : ((argsort s).filter (fun j => decide (IdxLt s i j))).length = descRank s i := by
    unfold descRank
    exact ((argsort_perm s).filter _).length_eq
  rw [topIdx, List.mem_reverse, pyLastSlice, if_neg hk, hdrop, hfilt, mem_argsort,
    argsort_length]
  constructor
  · rintro ⟨h1, h2⟩
    have := descRank_lt_length (s := s) h1
    exact ⟨h1, by omega⟩
  · rintro ⟨h1, h2⟩
    have := descRank_lt_length (s := s) h1
    exact ⟨h1, by omega⟩

theorem topIdx_nodup (s : List α) (k : ℕ) : (topIdx s k).Nodup := by
  rw [topIdx, List.nodup_reverse]
  unfold pyLastSlice
  split
  · exact argsort_nodup s
  · exact (argsort_nodup s).sublist (List.drop_sublist _ _)

theorem topIdx_length {s : List α} {k : ℕ} (hk : k ≠ 0) :
    (topIdx s k).length = min k s.length := by
  rw [topIdx, List.length_reverse, pyLastSlice, if_neg hk, List.length_drop, argsort_length]
  omega

theorem selectMask_length (n : ℕ) (ind : List ℕ) : (selectMask n ind).length = n := by
  simp [selectMask]

theorem selectMask_getD {n : ℕ} (ind : List ℕ) {i : ℕ} (h : i < n) :
    (selectMask n ind).getD i false = decide (i ∈ ind) := by
  unfold selectMask
  rw [List.getD_eq_getElem _ false (by simpa using h)]
  simp

theorem count_true_map (f : ℕ → Bool) : ∀ l : List ℕ, (l.map f).count true = l.countP f := by
  intro l
  induction l with
  | nil => rfl
  | cons a t ih =>
    simp only [List.map_cons, List.count_cons, List.countP_cons, ih]
    cases h : f a <;> simp [h]

theorem selectMask_count {n : ℕ} {ind : List ℕ} (h1 : ind.Nodup) (h2 : ∀ i ∈ ind, i < n) :
    (selectMask n ind).count true = ind.length := by
  rw [selectMask, count_true_map, List.countP_eq_length_filter]
  have hperm : ((List.range n).filter (fun i => decide (i ∈ ind))).Perm ind := by
    refine (List.perm_ext_iff_of_nodup ((List.nodup_range n).filter _) h1).mpr ?_
    intro a
    simp only [List.mem_filter, List.mem_range, decide_eq_true_eq]
    exact ⟨fun h => h.2, fun h => ⟨h2 a h, h⟩⟩
  exact hperm.length_eq

theorem topKMask_length (s : List α) (k : ℕ) : (topKMask s k).length = s.length :=
  selectMask_length _ _

/-- Acceptance-count lemma: the mask holds exactly min k n accepted rows. -/
theorem topKMask_count {s : List α} {k : ℕ} (hk : k ≠ 0) :
    (topKMask s k).count true = min k s.length := by
  rw [topKMask, selectMask_count (topIdx_nodup s k)
    (fun i hi => ((mem_topIdx hk).mp hi).1), topIdx_length hk]

/-- Acceptance-membership lemma: row i is accepted exactly when fewer than
k rows are ranked strictly above it. -/
theorem topKMask_getD {s : List α} {k i : ℕ} (hk : k ≠ 0) (hi : i < s.length) :
    ((topKMask s k).getD i false = true) ↔ descRank s i < k := by
  rw [topKMask, selectMask_getD _ hi]
  simp only [decide_eq_true_eq]
  rw [mem_topIdx hk]
  exact ⟨fun h => h.2, fun h => ⟨hi, h⟩⟩

/-- Requesting as many seats as there are rows accepts every row. -/
theorem topKMask_self (s : List α) : topKMask s s.length = List.replicate s.length true := by
  by_cases hn : s.length = 0
  · rw [hn]
    have hs : s = [] := List.length_eq_zero.mp hn
    subst hs
    rfl
  · refine List.ext_getElem (by simp [topKMask_length]) ?_
    intro i h1 h2
    have hi : i < s.length := by simpa [topKMask_length] using h1
    have : (topKMask s s.length).getD i false = true := by
      rw [topKMask_getD hn hi]
      exact descRank_lt_length hi
    rw [List.getD_eq_getElem _ false h1] at this
    rw [this]
    simp

end RankingTheorems

section Helpers

theorem sum_map_sub_const (x : List ℝ) (c : ℝ) :
    (x.map (fun v => v - c)).sum = x.sum - x.length * c := by
  induction x with
  | nil => simp
  | cons a t ih =>
    simp only [List.map_cons, List.sum_cons, ih, List.length_cons]
    push_cast
    ring

theorem npVar_nonneg (x : List ℝ) : 0 ≤ npVar x := by
  unfold npVar
  refine div_nonneg (List.sum_nonneg ?_) (by positivity)
  intro y hy
  obtain ⟨v, -, rfl⟩ := List.mem_map.mp hy
  positivity

theorem npVar_ne_zero_of_npStd {x : List ℝ} (h : npStd x ≠ 0) : npVar x ≠ 0 := by
  intro h0
  exact h (by rw [npStd, h0, Real.sqrt_zero])

theorem length_ne_zero_of_npStd {x : List ℝ} (h : npStd x ≠ 0) : (x.length : ℝ) ≠ 0 := by
  intro h0
  apply npVar_ne_zero_of_npStd h
  rw [npVar, h0, div_zero]

theorem normalize_length (x : List ℝ) : (normalize x).length = x.length := by
  simp [normalize]

theorem naiveScore_length {G L : List ℝ} (h : G.length = L.length) :
    (NaivePolicy.score G L).length = G.length := by
  simp [NaivePolicy.score, normalize_length, h]

theorem unawareScore_length {b : ℝ × ℝ × ℝ} {G L : List ℝ} (h : G.length = L.length) :
    (UnawarePolicy.score b G L).length = G.length := by
  simp [UnawarePolicy.score, h]

theorem residuals_length (reg : ℝ × ℝ × ℝ) (R S Y : List ℝ) :
    (residuals reg R S Y).length = min Y.length (min R.length S.length) := by
  simp [residuals]

theorem pcaTransform_length (p : PCA1) (rows : List (ℝ × ℝ)) :
    (pcaTransform p rows).length = rows.length := by
  simp [pcaTransform]

theorem fairScore_length {p : FairParams} {R S G L : List ℝ} (hRS : R.length = S.length)
    (hSG : S.length = G.length) (hGL : G.length = L.length) :
    (FairPolicy.score p R S G L).length = R.length := by
  simp only [FairPolicy.score, List.length_map, pcaTransform_length, List.length_zip,
    residuals_length]
  omega

theorem resolveSeats_none (n : ℕ) : resolveSeats n none = .ok n := rfl

theorem resolveSeats_pos (n : ℕ) {k : ℤ} (hk : 0 < k) :
    resolveSeats n (some k) = .ok (min n k.toNat) := by
  rw [resolveSeats, if_pos hk]

theorem resolveSeats_nonpos (n : ℕ) {k : ℤ} (hk : k ≤ 0) :
    resolveSeats n (some k) = .error .assertSeats := by
  rw [resolveSeats, if_neg (not_lt.mpr hk)]

theorem resolveSeats_isOk {n : ℕ} {ns : Option ℤ} (h : SeatsOk ns) :
    ∃ K, resolveSeats n ns = .ok K := by
  cases ns with
  | none => exact ⟨n, rfl⟩
  | some k => exact ⟨min n k.toNat, resolveSeats_pos n (h k rfl)⟩

theorem naive_evaluate_eq {G L : List ℝ} (h : G.length = L.length) {ns : Option ℤ} {K : ℕ}
    (hrs : resolveSeats G.length ns = .ok K) :
    NaivePolicy.evaluate G L ns = .ok (topKMask (NaivePolicy.score G L) K) := by
  rw [NaivePolicy.evaluate, if_pos h, hrs]

theorem unaware_evaluate_eq {b : ℝ × ℝ × ℝ} {G L : List ℝ} (h : G.length = L.length)
    {ns : Option ℤ} {K : ℕ} (hrs : resolveSeats G.length ns = .ok K) :
    UnawarePolicy.evaluate (some b) G L ns = .ok (topKMask (UnawarePolicy.score b G L) K) := by
  rw [UnawarePolicy.evaluate, if_pos h, hrs]

theorem fair_evaluate_eq {p : FairParams} {R S G L : List ℝ}
    (h : R.length = S.length ∧ S.length = G.length ∧ G.length = L.length)
    {ns : Option ℤ} {K : ℕ} (hrs : resolveSeats R.length ns = .ok K) :
    FairPolicy.evaluate (some p) R S G L ns = .ok (topKMask (FairPolicy.score p R S G L) K) := by
  rw [FairPolicy.evaluate, if_pos h, hrs]

end Helpers

/-- C7: for a column with nonzero standard deviation, normalize returns
(x - mean(x)) / stddev(x), a column with zero mean and unit variance; for
a constant column the standard deviation is zero, so the elementwise
division by zero is reached unguarded (in numpy it propagates as NaN or
Inf rather than raising). -/
theorem normalize_contract :
    (∀ x : List ℝ, normalize x = x.map (fun v => (v - npMean x) / npStd x)) ∧
    (∀ x : List ℝ, npStd x ≠ 0 → npMean (normalize x) = 0 ∧ npVar (normalize x) = 1) ∧
    (∀ (x : List ℝ) (c : ℝ), (∀ v ∈ x, v = c) → npStd x = 0) := by
  refine ⟨fun x => rfl, fun x h => ?_, fun x c h => ?_⟩
  · have hv := npVar_ne_zero_of_npStd h
    have hn := length_ne_zero_of_npStd h
    have hvpos := npVar_nonneg x
    have hsum0 : (x.map (fun v => v - npMean x)).sum = 0 := by
      rw [sum_map_sub_const, npMean]
      field_simp
    have hsumn : (x.map (fun v => (v - npMean x) / npStd x)).sum = 0 := by
      simp only [div_eq_mul_inv]
      rw [List.sum_map_mul_right, hsum0, zero_mul]
    have hmean : npMean (normalize x) = 0 := by
      rw [npMean, normalize, hsumn, zero_div]
    refine ⟨hmean, ?_⟩
    have hsq : npStd x ^ 2 = npVar x := Real.sq_sqrt hvpos
    have hS : (x.map (fun v => (v - npMean x) ^ 2)).sum = npVar x * x.length := by
      rw [npVar]
      field_simp
    rw [npVar, hmean, normalize]
    simp only [sub_zero, List.length_map, List.map_map, Function.comp_def]
    have hterm : (fun v => ((v - npMean x) / npStd x) ^ 2) =
        (fun v => (v - npMean x) ^ 2 * (npStd x ^ 2)⁻¹) := by
      funext v
      rw [div_pow, div_eq_mul_inv]
    rw [hterm, List.sum_map_mul_right, hS, hsq]
    field_simp
  · have hvar0 : npVar x = 0 := by
      rcases eq_or_ne x [] with rfl | hne
      · simp [npVar, npMean]
      · have hlen : (x.length : ℝ) ≠ 0 := by
          have hpos : (0:ℝ) < x.length := by exact_mod_cast List.length_pos.mpr hne
          exact ne_of_gt hpos
        have hmean : npMean x = c := by
          rw [npMean, List.sum_eq_card_nsmul x c h, nsmul_eq_mul]
          field_simp
        have hz : ∀ y ∈ x.map (fun v => (v - npMean x) ^ 2), y = 0 := by
          intro y hy
          obtain ⟨v, hv, rfl⟩ := List.mem_map.mp hy
          rw [h v hv, hmean]
          ring
        rw [npVar, List.sum_eq_zero hz, zero_div]
    rw [npStd, hvar0, Real.sqrt_zero]

/-- Witness for C7: concrete nondegenerate and constant columns. -/
theorem normalize_contract_witness :
    npStd [1, 2] ≠ 0 ∧
    (npMean (normalize [1, 2]) = 0 ∧ npVar (normalize [1, 2]) = 1) ∧
    npStd [3, 3] = 0 := by
  have h1 : npStd [1, 2] ≠ 0 := by
    have hv : npVar [1, 2] = 1 / 4 := by
      norm_num [npVar, npMean]
    rw [npStd, hv]
    rw [Real.sqrt_ne_zero (by norm_num)]
    norm_num
  refine ⟨h1, normalize_contract.2.1 [1, 2] h1, normalize_contract.2.2 [3, 3] 3 ?_⟩
  intro v hv
  rcases List.mem_cons.mp hv with rfl | hv2
  · rfl
  · rcases List.mem_cons.mp hv2 with rfl | hv3
    · rfl
    · exact absurd hv3 (List.not_mem_nil v)

/-- C5: for every policy, a shape mismatch between the paired input
columns or a non-positive seat count is rejected by the assert preamble
with a hard error, and no acceptance mask is returned (a non-integer seat
count is unrepresentable in this typed embedding). -/
theorem evaluate_precondition_failures :
    (∀ (G L : List ℝ) (ns : Option ℤ), G.length ≠ L.length →
      NaivePolicy.evaluate G L ns = .error .assertShape) ∧
    (∀ (G L : List ℝ) (k : ℤ), G.length = L.length → k ≤ 0 →
      NaivePolicy.evaluate G L (some k) = .error .assertSeats) ∧
    (∀ (st : Option (ℝ × ℝ × ℝ)) (G L : List ℝ) (ns : Option ℤ), G.length ≠ L.length →
      UnawarePolicy.evaluate st G L ns = .error .assertShape) ∧
    (∀ (st : Option (ℝ × ℝ × ℝ)) (G L : List ℝ) (k : ℤ), G.length = L.length → k ≤ 0 →
      UnawarePolicy.evaluate st G L (some k) = .error .assertSeats) ∧
    (∀ (st : Option FairParams) (R S G L : List ℝ) (ns : Option ℤ),
      ¬ (R.length = S.length ∧ S.length = G.length ∧ G.length = L.length) →
      FairPolicy.evaluate st R S G L ns = .error .assertShape) ∧
    (∀ (st : Option FairParams) (R S G L : List ℝ) (k : ℤ),
      (R.length = S.length ∧ S.length = G.length ∧ G.length = L.length) → k ≤ 0 →
      FairPolicy.evaluate st R S G L (some k) = .error .assertSeats) := by
  refine ⟨?_, ?_, ?_, ?_, ?_, ?_⟩
  · intro G L ns h
    rw [NaivePolicy.evaluate, if_neg h]
  · intro G L k h hk
    rw [NaivePolicy.evaluate, if_pos h, resolveSeats_nonpos _ hk]
  · intro st G L ns h
    rw [UnawarePolicy.evaluate, if_neg h]
  · intro st G L k h hk
    rw [UnawarePolicy.evaluate, if_pos h, resolveSeats_nonpos _ hk]
  · intro st R S G L ns h
    rw [FairPolicy.evaluate, if_neg h]
  · intro st R S G L k h hk
    rw [FairPolicy.evaluate, if_pos h, resolveSeats_nonpos _ hk]

/-- Witness for C5: concrete mismatched shapes and a zero seat count. -/
theorem evaluate_precondition_failures_witness :
    NaivePolicy.evaluate [1] [] none = .error .assertShape ∧
    NaivePolicy.evaluate [1] [2] (some 0) = .error .assertSeats ∧
    UnawarePolicy.evaluate none [1] [] none = .error .assertShape ∧
    UnawarePolicy.evaluate none [1] [2] (some 0) = .error .assertSeats ∧
    FairPolicy.evaluate none [1] [] [] [] none = .error .assertShape ∧
    FairPolicy.evaluate none [1] [1] [1] [1] (some 0) = .error .assertSeats :=
  ⟨evaluate_precondition_failures.1 [1] [] none (by simp),
   evaluate_precondition_failures.2.1 [1] [2] 0 (by simp) le_rfl,
   evaluate_precondition_failures.2.2.1 none [1] [] none (by simp),
   evaluate_precondition_failures.2.2.2.1 none [1] [2] 0 (by simp) le_rfl,
   evaluate_precondition_failures.2.2.2.2.1 none [1] [] [] [] none (by simp),
   evaluate_precondition_failures.2.2.2.2.2 none [1] [1] [1] [1] 0 (by simp) le_rfl⟩

/-- C6: calling evaluate on an untrained Unaware or Fair policy fails with
an AttributeError naming the missing fitted attribute, and evaluate
succeeds on every otherwise-valid input once the policy holds a fit. -/
theorem use_before_train :
    (∀ (G L : List ℝ) (ns : Option ℤ), G.length = L.length → SeatsOk ns →
      UnawarePolicy.evaluate none G L ns = .error (.attributeError "F_reg")) ∧
    (∀ (R S G L : List ℝ) (ns : Option ℤ),
      (R.length = S.length ∧ S.length = G.length ∧ G.length = L.length) → SeatsOk ns →
      FairPolicy.evaluate none R S G L ns = .error (.attributeError "G_reg")) ∧
    (∀ (b : ℝ × ℝ × ℝ) (G L : List ℝ) (ns : Option ℤ), G.length = L.length → SeatsOk ns →
      ∃ mask, UnawarePolicy.evaluate (some b) G L ns = .ok mask) ∧
    (∀ (p : FairParams) (R S G L : List ℝ) (ns : Option ℤ),
      (R.length = S.length ∧ S.length = G.length ∧ G.length = L.length) → SeatsOk ns →
      ∃ mask, FairPolicy.evaluate (some p) R S G L ns = .ok mask) := by
  refine ⟨?_, ?_, ?_, ?_⟩
  · intro G L ns h hok
    obtain ⟨K, hK⟩ := resolveSeats_isOk (n := G.length) hok
    rw [UnawarePolicy.evaluate, if_pos h, hK]
  · intro R S G L ns h hok
    obtain ⟨K, hK⟩ := resolveSeats_isOk (n := R.length) hok
    rw [FairPolicy.evaluate, if_pos h, hK]
  · intro b G L ns h hok
    obtain ⟨K, hK⟩ := resolveSeats_isOk (n := G.length) hok
    exact ⟨_, unaware_evaluate_eq h hK⟩
  · intro p R S G L ns h hok
    obtain ⟨K, hK⟩ := resolveSeats_isOk (n := R.length) hok
    exact ⟨_, fair_evaluate_eq h hK⟩

/-- Witness for C6: concrete untrained failures. -/
theorem use_before_train_witness :
    UnawarePolicy.evaluate none [1] [1] none = .error (.attributeError "F_reg") ∧
    FairPolicy.evaluate none [1] [1] [1] [1] none = .error (.attributeError "G_reg") :=
  ⟨use_before_train.1 [1] [1] none rfl (fun k hk => by cases hk),
   use_before_train.2.1 [1] [1] [1] [1] none ⟨rfl, rfl, rfl⟩ (fun k hk => by cases hk)⟩

/-- C10: omitting nb_seats defaults the seat count to nb_obs with no
positivity check, so every policy accepts every applicant: the returned
mask is all true of length nb_obs. -/
theorem default_seats_accept_all :
    (∀ G L : List ℝ, G.length = L.length →
      NaivePolicy.evaluate G L none = .ok (List.replicate G.length true)) ∧
    (∀ (b : ℝ × ℝ × ℝ) (G L : List ℝ), G.length = L.length →
      UnawarePolicy.evaluate (some b) G L none = .ok (List.replicate G.length true)) ∧
    (∀ (p : FairParams) (R S G L : List ℝ),
      R.length = S.length → S.length = G.length → G.length = L.length →
      FairPolicy.evaluate (some p) R S G L none = .ok (List.replicate R.length true)) := by
  refine ⟨?_, ?_, ?_⟩
  · intro G L h
    rw [naive_evaluate_eq h (resolveSeats_none _)]
    have hs := naiveScore_length h
    rw [← hs, topKMask_self]
  · intro b G L h
    rw [unaware_evaluate_eq h (resolveSeats_none _)]
    have hs := unawareScore_length (b := b) h
    rw [← hs, topKMask_self]
  · intro p R S G L hRS hSG hGL
    rw [fair_evaluate_eq ⟨hRS, hSG, hGL⟩ (resolveSeats_none _)]
    have hs := fairScore_length (p := p) hRS hSG hGL
    rw [← hs, topKMask_self]

/-- Witness for C10: every policy accepts the whole single-row column when
nb_seats is omitted. -/
theorem default_seats_accept_all_witness :
    NaivePolicy.evaluate [1] [1] none = .ok [true] ∧
    UnawarePolicy.evaluate (some (0, 0, 0)) [1] [1] none = .ok [true] ∧
    FairPolicy.evaluate (some ⟨(0, 0, 0), (0, 0, 0), ⟨0, 0, 0, 0, 0⟩, 1⟩)
      [1] [1] [1] [1] none = .ok [true] :=
  ⟨default_seats_accept_all.1 [1] [1] rfl,
   default_seats_accept_all.2.1 (0, 0, 0) [1] [1] rfl,
   default_seats_accept_all.2.2 ⟨(0, 0, 0), (0, 0, 0), ⟨0, 0, 0, 0, 0⟩, 1⟩
     [1] [1] [1] [1] rfl rfl rfl⟩

/-- C2: for equal-shape non-constant columns and a positive seat count,
NaivePolicy.evaluate returns a boolean vector of length nb_obs with
exactly min(nb_seats, nb_obs) true entries; when nb_seats exceeds nb_obs
the mask is all true. -/
theorem naive_evaluate_count (G L : List ℝ) (k : ℤ) (hshape : G.length = L.length)
    (_hG : npStd G ≠ 0) (_hL : npStd L ≠ 0) (hk : 0 < k) :
    ∃ mask, NaivePolicy.evaluate G L (some k) = .ok mask ∧ mask.length = G.length ∧
      mask.count true = min k.toNat G.length ∧
      (G.length < k.toNat → mask = List.replicate G.length true) := by
  have hs := naiveScore_length hshape
  refine ⟨_, naive_evaluate_eq hshape (resolveSeats_pos _ hk), ?_, ?_, ?_⟩
  · rw [topKMask_length, hs]
  · by_cases hn : G.length = 0
    · have hsnil : NaivePolicy.score G L = [] := List.length_eq_zero.mp (hs.trans hn)
      rw [hsnil, hn]
      simp [topKMask, selectMask]
    · have hK : min G.length k.toNat ≠ 0 := by omega
      rw [topKMask_count hK, hs]
      omega
  · intro hlt
    have hmin : min G.length k.toNat = G.length := by omega
    rw [hmin, ← hs, topKMask_self]

/-- Witness for C2: five seats requested over two rows accept both. -/
theorem naive_evaluate_count_witness :
    NaivePolicy.evaluate [1, 2] [2, 3] (some 5) = .ok [true, true] := by
  have h1 : npStd [1, 2] ≠ 0 := by
    have hv : npVar [1, 2] = 1 / 4 := by norm_num [npVar, npMean]
    rw [npStd, hv, Real.sqrt_ne_zero (by norm_num)]
    norm_num
  have h2 : npStd [2, 3] ≠ 0 := by
    have hv : npVar [2, 3] = 1 / 4 := by norm_num [npVar, npMean]
    rw [npStd, hv, Real.sqrt_ne_zero (by norm_num)]
    norm_num
  obtain ⟨mask, hm, -, -, hall⟩ := naive_evaluate_count [1, 2] [2, 3] 5 rfl h1 h2 (by norm_num)
  rw [hall (by norm_num)] at hm
  exact hm

/-- C8: train on one instance overwrites exactly that instance's fitted
attributes (the new fit does not depend on the prior one) and leaves every
other instance unchanged; input columns are immutable values in this
embedding. -/
theorem train_frame_effect :
    (∀ (w : World) (id : ℕ) (G L F : List ℝ) (tst : List ℕ),
      (trainUnawareAt w id G L F tst).unawareInst id = UnawarePolicy.train G L F tst ∧
      (∀ j, j ≠ id → (trainUnawareAt w id G L F tst).unawareInst j = w.unawareInst j) ∧
      (∀ j, (trainUnawareAt w id G L F tst).fairInst j = w.fairInst j)) ∧
    (∀ (w : World) (id : ℕ) (R S G L : List ℝ) (tstG tstL : List ℕ),
      (trainFairAt w id R S G L tstG tstL).fairInst id = FairPolicy.train R S G L tstG tstL ∧
      (∀ j, j ≠ id → (trainFairAt w id R S G L tstG tstL).fairInst j = w.fairInst j) ∧
      (∀ j, (trainFairAt w id R S G L tstG tstL).unawareInst j = w.unawareInst j)) := by
  constructor
  · intro w id G L F tst
    refine ⟨by simp [trainUnawareAt], fun j hj => ?_, fun j => rfl⟩
    simp [trainUnawareAt, hj]
  · intro w id R S G L tstG tstL
    refine ⟨by simp [trainFairAt], fun j hj => ?_, fun j => rfl⟩
    simp [trainFairAt, hj]

/-- Witness for C8: training instance 0 leaves instance 1 untouched. -/
theorem train_frame_effect_witness :
    (trainUnawareAt ⟨fun _ => none, fun _ => none⟩ 0 [] [] [] []).unawareInst 1 = none ∧
    (trainFairAt ⟨fun _ => none, fun _ => none⟩ 0 [] [] [] [] [] []).fairInst 1 = none :=
  ⟨(train_frame_effect.1 ⟨fun _ => none, fun _ => none⟩ 0 [] [] [] []).2.1 1 (by decide),
   (train_frame_effect.2 ⟨fun _ => none, fun _ => none⟩ 0 [] [] [] [] [] []).2.1 1 (by decide)⟩

/-- C9: training twice with identical inputs and the same random partition
leaves exactly the state of a single training call, hence every subsequent
evaluate sees identical fitted coefficients and returns the same mask. -/
theorem train_idempotent :
    (∀ (w : World) (id : ℕ) (G L F : List ℝ) (tst : List ℕ),
      trainUnawareAt (trainUnawareAt w id G L F tst) id G L F tst =
        trainUnawareAt w id G L F tst) ∧
    (∀ (w : World) (id : ℕ) (R S G L : List ℝ) (tstG tstL : List ℕ),
      trainFairAt (trainFairAt w id R S G L tstG tstL) id R S G L tstG tstL =
        trainFairAt w id R S G L tstG tstL) ∧
    (∀ (w : World) (id : ℕ) (G L F : List ℝ) (tst : List ℕ) (G2 L2 : List ℝ) (ns : Option ℤ),
      UnawarePolicy.evaluate
          ((trainUnawareAt (trainUnawareAt w id G L F tst) id G L F tst).unawareInst id)
          G2 L2 ns =
        UnawarePolicy.evaluate ((trainUnawareAt w id G L F tst).unawareInst id) G2 L2 ns) ∧
    (∀ (w : World) (id : ℕ) (R S G L : List ℝ) (tstG tstL : List ℕ)
        (R2 S2 G2 L2 : List ℝ) (ns : Option ℤ),
      FairPolicy.evaluate
          ((trainFairAt (trainFairAt w id R S G L tstG tstL) id R S G L tstG tstL).fairInst id)
          R2 S2 G2 L2 ns =
        FairPolicy.evaluate ((trainFairAt w id R S G L tstG tstL).fairInst id)
          R2 S2 G2 L2 ns) := by
  have hu : ∀ (w : World) (id : ℕ) (G L F : List ℝ) (tst : List ℕ),
      trainUnawareAt (trainUnawareAt w id G L F tst) id G L F tst =
        trainUnawareAt w id G L F tst := by
    intro w id G L F tst
    refine World.ext ?_ rfl
    funext j
    by_cases hj : j = id <;> simp [trainUnawareAt, hj]
  have hf : ∀ (w : World) (id : ℕ) (R S G L : List ℝ) (tstG tstL : List ℕ),
      trainFairAt (trainFairAt w id R S G L tstG tstL) id R S G L tstG tstL =
        trainFairAt w id R S G L tstG tstL := by
    intro w id R S G L tstG tstL
    refine World.ext rfl ?_
    funext j
    by_cases hj : j = id <;> simp [trainFairAt, hj]
  refine ⟨hu, hf, ?_, ?_⟩
  · intro w id G L F tst G2 L2 ns
    rw [hu]
  · intro w id R S G L tstG tstL R2 S2 G2 L2 ns
    rw [hf]

/-- C3: for each policy the set of accepted indices is exactly the set of
indices whose descending rank in the policy's internal score (ties broken
by the stable underlying sort order) is below min(nb_seats, nb_obs); on
G = L = [1,2,3,4,5] with two seats, NaivePolicy accepts indices 4 and 3. -/
theorem accepted_set_is_topk :
    (∀ (G L : List ℝ) (k : ℤ) (mask : List Bool), G.length = L.length → 0 < k →
      NaivePolicy.evaluate G L (some k) = .ok mask →
      ∀ i, i < G.length →
        (mask.getD i false = true ↔
          descRank (NaivePolicy.score G L) i < min k.toNat G.length)) ∧
    (∀ (b : ℝ × ℝ × ℝ) (G L : List ℝ) (k : ℤ) (mask : List Bool),
      G.length = L.length → 0 < k →
      UnawarePolicy.evaluate (some b) G L (some k) = .ok mask →
      ∀ i, i < G.length →
        (mask.getD i false = true ↔
          descRank (UnawarePolicy.score b G L) i < min k.toNat G.length)) ∧
    (∀ (p : FairParams) (R S G L : List ℝ) (k : ℤ) (mask : List Bool),
      R.length = S.length → S.length = G.length → G.length = L.length → 0 < k →
      FairPolicy.evaluate (some p) R S G L (some k) = .ok mask →
      ∀ i, i < R.length →
        (mask.getD i false = true ↔
          descRank (FairPolicy.score p R S G L) i < min k.toNat R.length)) ∧
    NaivePolicy.evaluate [1, 2, 3, 4, 5] [1, 2, 3, 4, 5] (some 2) =
      .ok [false, false, false, true, true] := by
  have key : ∀ (s : List ℝ) (n : ℕ) (k : ℤ) (mask : List Bool), s.length = n → 0 < k →
      topKMask s (min n k.toNat) = mask → ∀ i, i < n →
      (mask.getD i false = true ↔ descRank s i < min k.toNat n) := by
    intro s n k mask hs hk hmask i hi
    subst hmask
    have hK : min n k.toNat ≠ 0 := by omega
    have hi2 : i < s.length := by rw [hs]; exact hi
    rw [topKMask_getD hK hi2, Nat.min_comm]
  refine ⟨?_, ?_, ?_, ?_⟩
  · intro G L k mask hsh hk heval
    rw [naive_evaluate_eq hsh (resolveSeats_pos _ hk)] at heval
    injection heval with h
    exact key _ _ k mask (naiveScore_length hsh) hk h
  · intro b G L k mask hsh hk heval
    rw [unaware_evaluate_eq hsh (resolveSeats_pos _ hk)] at heval
    injection heval with h
    exact key _ _ k mask (unawareScore_length hsh) hk h
  · intro p R S G L k mask hRS hSG hGL hk heval
    rw [fair_evaluate_eq ⟨hRS, hSG, hGL⟩ (resolveSeats_pos _ hk)] at heval
    injection heval with h
    exact key _ _ k mask (fairScore_length hRS hSG hGL) hk h
  · have hmean : npMean [1, 2, 3, 4, 5] = 3 := by norm_num [npMean]
    have hvar : npVar [1, 2, 3, 4, 5] = 2 := by norm_num [npVar, hmean]
    have hstd : npStd [1, 2, 3, 4, 5] = Real.sqrt 2 := by rw [npStd, hvar]
    have hpos : (0:ℝ) < Real.sqrt 2 := Real.sqrt_pos.mpr (by norm_num)
    have hscore : NaivePolicy.score [1, 2, 3, 4, 5] [1, 2, 3, 4, 5] =
        [(1-3)/Real.sqrt 2 + (1-3)/Real.sqrt 2, (2-3)/Real.sqrt 2 + (2-3)/Real.sqrt 2,
         (3-3)/Real.sqrt 2 + (3-3)/Real.sqrt 2, (4-3)/Real.sqrt 2 + (4-3)/Real.sqrt 2,
         (5-3)/Real.sqrt 2 + (5-3)/Real.sqrt 2] := by
      rw [NaivePolicy.score, normalize, hmean, hstd]
      simp only [List.map_cons, List.map_nil, List.zipWith_cons_cons, List.zipWith_nil_right]
    have hmono : ∀ a b : ℝ, a < b →
        a / Real.sqrt 2 + a / Real.sqrt 2 < b / Real.sqrt 2 + b / Real.sqrt 2 := by
      intro a b h
      have h2 := (div_lt_div_iff_of_pos_right hpos).mpr h
      exact add_lt_add h2 h2
    have hargsort : argsort
        [(1-3)/Real.sqrt 2 + (1-3)/Real.sqrt 2, (2-3)/Real.sqrt 2 + (2-3)/Real.sqrt 2,
         (3-3)/Real.sqrt 2 + (3-3)/Real.sqrt 2, (4-3)/Real.sqrt 2 + (4-3)/Real.sqrt 2,
         (5-3)/Real.sqrt 2 + (5-3)/Real.sqrt 2] = [0, 1, 2, 3, 4] := by
      apply argsort_eq_of_sorted
      · decide
      · apply sorted_idxLe_of_chain
        refine List.chain'_cons.mpr ⟨Or.inl (hmono (1-3) (2-3) (by norm_num)), ?_⟩
        refine List.chain'_cons.mpr ⟨Or.inl (hmono (2-3) (3-3) (by norm_num)), ?_⟩
        refine List.chain'_cons.mpr ⟨Or.inl (hmono (3-3) (4-3) (by norm_num)), ?_⟩
        refine List.chain'_cons.mpr ⟨Or.inl (hmono (4-3) (5-3) (by norm_num)), ?_⟩
        exact List.chain'_singleton 4
    rw [naive_evaluate_eq rfl (resolveSeats_pos _ (by norm_num)), hscore]
    refine congrArg Except.ok ?_
    rw [topKMask, topIdx, hargsort]
    decide

/-- Witness for C3: index 4 of the scenario mask against its rank. -/
theorem accepted_set_is_topk_witness :
    ([false, false, false, true, true].getD 4 false = true) ↔
      descRank (NaivePolicy.score [1, 2, 3, 4, 5] [1, 2, 3, 4, 5]) 4 < min (2:ℤ).toNat 5 :=
  accepted_set_is_topk.1 [1, 2, 3, 4, 5] [1, 2, 3, 4, 5] 2 [false, false, false, true, true]
    rfl (by norm_num) accepted_set_is_topk.2.2.2 4 (by norm_num)

/-- C4: FairPolicy.train produces exactly the two split-trained OLS fits
of G and L on hstack([R, S]), the single-component whitened PCA fitted on
the two residual columns, and the sign of the correlation between the
transformed residuals and G; evaluate recomputes residuals with exactly
those fitted regressions, projects them through the fitted component,
applies the sign, and accepts the top min(nb_seats, nb_obs) rows. -/
theorem fair_train_evaluate_pipeline :
    (∀ (R S G L : List ℝ) (tstG tstL : List ℕ) (st : FairParams),
      FairPolicy.train R S G L tstG tstL = some st →
      olsFit2 (trainRows tstG (List.zip R S)) (trainRows tstG G) = some st.G_reg ∧
      olsFit2 (trainRows tstL (List.zip R S)) (trainRows tstL L) = some st.L_reg ∧
      st.A_pca = pcaFit (List.zip (residuals st.G_reg R S G) (residuals st.L_reg R S L)) ∧
      st.sgn = Real.sign (npCorr (pcaTransform st.A_pca
        (List.zip (residuals st.G_reg R S G) (residuals st.L_reg R S L))) G)) ∧
    (∀ (st : FairParams) (R S G L : List ℝ) (k : ℤ),
      R.length = S.length → S.length = G.length → G.length = L.length → 0 < k →
      FairPolicy.evaluate (some st) R S G L (some k) =
        .ok (topKMask ((pcaTransform st.A_pca (List.zip (residuals st.G_reg R S G)
          (residuals st.L_reg R S L))).map (fun v => st.sgn * v))
          (min R.length k.toNat))) := by
  constructor
  · intro R S G L tstG tstL st h
    simp only [FairPolicy.train] at h
    rcases hg : olsFit2 (trainRows tstG (List.zip R S)) (trainRows tstG G) with - | gReg
    · rw [hg] at h
      simp at h
    · rw [hg] at h
      rcases hl : olsFit2 (trainRows tstL (List.zip R S)) (trainRows tstL L) with - | lReg
      · rw [hl] at h
        simp at h
      · rw [hl] at h
        simp only [Option.some.injEq] at h
        subst h
        exact ⟨rfl, rfl, rfl, rfl⟩
  · intro st R S G L k hRS hSG hGL hk
    rw [fair_evaluate_eq ⟨hRS, hSG, hGL⟩ (resolveSeats_pos _ hk)]
    rfl

/-- Witness for C4: the evaluate part at a concrete fitted state. -/
theorem fair_train_evaluate_pipeline_witness :
    FairPolicy.evaluate (some ⟨(0, 0, 0), (0, 0, 0), ⟨0, 0, 0, 0, 0⟩, 1⟩)
        [1] [1] [1] [1] (some 1) =
      .ok (topKMask ((pcaTransform (⟨0, 0, 0, 0, 0⟩ : PCA1) (List.zip
        (residuals (0, 0, 0) [1] [1] [1]) (residuals (0, 0, 0) [1] [1] [1]))).map
        (fun v => (1:ℝ) * v)) (min ([(1:ℝ)].length) (1:ℤ).toNat)) :=
  fair_train_evaluate_pipeline.2 ⟨(0, 0, 0), (0, 0, 0), ⟨0, 0, 0, 0, 0⟩, 1⟩
    [1] [1] [1] [1] 1 rfl rfl rfl (by norm_num)

/-- C1 counterexample: the random train/test split inside train is used to
fit the regression itself, so it does change the fitted parameters and the
acceptance mask: on a fixed five-row dataset, two valid partitions give
different fitted coefficients and different evaluate masks. -/
theorem unaware_partition_counterexample :
    ValidSplit 5 [3, 4] ∧ ValidSplit 5 [2, 4] ∧
    UnawarePolicy.train [0, 1, 0, 1, 2] [0, 0, 1, 1, -1] [0, 0, 0, 10, 0] [3, 4] ≠
      UnawarePolicy.train [0, 1, 0, 1, 2] [0, 0, 1, 1, -1] [0, 0, 0, 10, 0] [2, 4] ∧
    UnawarePolicy.evaluate
        (UnawarePolicy.train [0, 1, 0, 1, 2] [0, 0, 1, 1, -1] [0, 0, 0, 10, 0] [3, 4])
        [0, 1, 0, 1, 2] [0, 0, 1, 1, -1] (some 1) ≠
      UnawarePolicy.evaluate
        (UnawarePolicy.train [0, 1, 0, 1, 2] [0, 0, 1, 1, -1] [0, 0, 0, 10, 0] [2, 4])
        [0, 1, 0, 1, 2] [0, 0, 1, 1, -1] (some 1) := by
  have ht1 : UnawarePolicy.train [0, 1, 0, 1, 2] [0, 0, 1, 1, -1] [0, 0, 0, 10, 0] [3, 4] =
      some (0, 0, 0) := by
    norm_num [UnawarePolicy.train, trainRows, olsFit2, List.zip, List.zipWith, List.enum,
      List.enumFrom, List.filter]
  have ht2 : UnawarePolicy.train [0, 1, 0, 1, 2] [0, 0, 1, 1, -1] [0, 0, 0, 10, 0] [2, 4] =
      some (0, 0, 10) := by
    norm_num [UnawarePolicy.train, trainRows, olsFit2, List.zip, List.zipWith, List.enum,
      List.enumFrom, List.filter]
  have hs1 : UnawarePolicy.score (0, 0, 0) [0, 1, 0, 1, 2] [0, 0, 1, 1, -1] =
      [0, 0, 0, 0, 0] := by
    norm_num [UnawarePolicy.score, olsPredict, List.zip, List.zipWith]
  have hs2 : UnawarePolicy.score (0, 0, 10) [0, 1, 0, 1, 2] [0, 0, 1, 1, -1] =
      [0, 0, 10, 10, -10] := by
    norm_num [UnawarePolicy.score, olsPredict, List.zip, List.zipWith]
  have ha1 : argsort ([0, 0, 0, 0, 0] : List ℝ) = [0, 1, 2, 3, 4] := by
    apply argsort_eq_of_sorted
    · decide
    · apply sorted_idxLe_of_chain
      refine List.chain'_cons.mpr ⟨Or.inr ⟨rfl, by norm_num⟩, ?_⟩
      refine List.chain'_cons.mpr ⟨Or.inr ⟨rfl, by norm_num⟩, ?_⟩
      refine List.chain'_cons.mpr ⟨Or.inr ⟨rfl, by norm_num⟩, ?_⟩
      refine List.chain'_cons.mpr ⟨Or.inr ⟨rfl, by norm_num⟩, ?_⟩
      exact List.chain'_singleton 4
  have ha2 : argsort ([0, 0, 10, 10, -10] : List ℝ) = [4, 0, 1, 2, 3] := by
    apply argsort_eq_of_sorted
    · decide
    · apply sorted_idxLe_of_chain
      refine List.chain'_cons.mpr ⟨Or.inl (show (-10:ℝ) < 0 by norm_num), ?_⟩
      refine List.chain'_cons.mpr ⟨Or.inr ⟨rfl, by norm_num⟩, ?_⟩
      refine List.chain'_cons.mpr ⟨Or.inl (show (0:ℝ) < 10 by norm_num), ?_⟩
      refine List.chain'_cons.mpr ⟨Or.inr ⟨rfl, by norm_num⟩, ?_⟩
      exact List.chain'_singleton 3
  have he1 : UnawarePolicy.evaluate (some ((0:ℝ), (0:ℝ), (0:ℝ))) [0, 1, 0, 1, 2]
      [0, 0, 1, 1, -1] (some 1) = .ok [false, false, false, false, true] := by
    rw [unaware_evaluate_eq
      (show ([(0:ℝ), 1, 0, 1, 2]).length = ([(0:ℝ), 0, 1, 1, -1]).length from rfl)
      (resolveSeats_pos _ (by norm_num)), hs1]
    refine congrArg Except.ok ?_
    rw [topKMask, topIdx, ha1]
    decide
  have he2 : UnawarePolicy.evaluate (some ((0:ℝ), (0:ℝ), (10:ℝ))) [0, 1, 0, 1, 2]
      [0, 0, 1, 1, -1] (some 1) = .ok [false, false, false, true, false] := by
    rw [unaware_evaluate_eq
      (show ([(0:ℝ), 1, 0, 1, 2]).length = ([(0:ℝ), 0, 1, 1, -1]).length from rfl)
      (resolveSeats_pos _ (by norm_num)), hs2]
    refine congrArg Except.ok ?_
    rw [topKMask, topIdx, ha2]
    decide
  refine ⟨⟨by decide, by decide, by decide⟩, ⟨by decide, by decide, by decide⟩, ?_, ?_⟩
  · rw [ht1, ht2]
    simp only [ne_eq, Option.some.injEq, Prod.mk.injEq, not_and]
    intro h1 h2
    norm_num
  · rw [ht1, ht2, he1, he2]
    simp

/-- C1 (amended): policy behaviour is deterministic only once the random
partition of the internal train/test split is fixed: with equal partitions
train followed by evaluate gives equal masks (the partition does reach the
fitted parameters, as the counterexample shows). -/
theorem policy_deterministic_given_partition :
    (∀ (G L F G2 L2 : List ℝ) (ns : Option ℤ) (t1 t2 : List ℕ), t1 = t2 →
      UnawarePolicy.evaluate (UnawarePolicy.train G L F t1) G2 L2 ns =
        UnawarePolicy.evaluate (UnawarePolicy.train G L F t2) G2 L2 ns) ∧
    (∀ (R S G L R2 S2 G2 L2 : List ℝ) (ns : Option ℤ) (tG1 tL1 tG2 tL2 : List ℕ),
      tG1 = tG2 → tL1 = tL2 →
      FairPolicy.evaluate (FairPolicy.train R S G L tG1 tL1) R2 S2 G2 L2 ns =
        FairPolicy.evaluate (FairPolicy.train R S G L tG2 tL2) R2 S2 G2 L2 ns) := by
  constructor
  · intro G L F G2 L2 ns t1 t2 h
    rw [h]
  · intro R S G L R2 S2 G2 L2 ns tG1 tL1 tG2 tL2 h1 h2
    rw [h1, h2]

/-- Witness for the amended C1: equal partitions on a concrete dataset. -/
theorem policy_deterministic_given_partition_witness :
    UnawarePolicy.evaluate (UnawarePolicy.train [1] [1] [1] [0]) [1] [1] none =
      UnawarePolicy.evaluate (UnawarePolicy.train [1] [1] [1] [0]) [1] [1] none :=
  policy_deterministic_given_partition.1 [1] [1] [1] [1] [1] none [0] [0] rfl

end LawSchool
